import Mathlib

/-!
Shallow embedding of the selection subsystem of the Empirical library:
the Middle Square Weyl Sequence pseudo-random generator
(include/emp/math/Random.hpp) and the selection algorithms
(source/Evolve/World_select.h).  Machine integers are modelled as Nat
with explicit reduction mod 2^32 / 2^64; C++ doubles that only carry
exact dyadic values (raw draws, probabilities, fitness) are modelled
as rationals.
-/

namespace EmpSelect

/-! ### Random.hpp : Middle Square Weyl Sequence generator -/

/-- Weyl sequence step constant 0xb5ad4eceda1ce2a9 (Random.hpp). -/
def STEP_SIZE : ℕ := 0xb5ad4eceda1ce2a9

/-- RAND_CAP = 2^32 (Random.hpp). -/
def RAND_CAP : ℕ := 4294967296

/-- Modulus of 64-bit unsigned arithmetic. -/
def U64 : ℕ := 18446744073709551616

/-- Generator state: the squaring accumulator `value` and the Weyl
sequence state `weyl_state`, both 64-bit (Random.hpp members). -/
structure RandState where
  value : ℕ
  weyl_state : ℕ
deriving DecidableEq, Repr

/-- One step of `Random::Get`: square the accumulator, advance the Weyl
state by `STEP_SIZE`, add it in, then swap the 32-bit halves.  The C++
`(value>>32) | (value<<32)` on disjoint halves equals
`v / 2^32 + (v % 2^32) * 2^32`. -/
def randStep (s : RandState) : RandState :=
  let v1 : ℕ := (s.value * s.value) % U64
  let w : ℕ := (s.weyl_state + STEP_SIZE) % U64
  let v2 : ℕ := (v1 + w) % U64
  let v3 : ℕ := v2 / RAND_CAP + (v2 % RAND_CAP) * RAND_CAP
  ⟨v3, w⟩

/-- The 32-bit value returned by `Random::Get` from state `s`
(the low 32 bits of the rotated accumulator). -/
def Get (s : RandState) : ℕ := (randStep s).value % RAND_CAP

/-- Raw draw of the n-th call to `Get` starting from state `s`
(n = 0 is the first call). -/
def nthDraw (s : RandState) (n : ℕ) : ℕ := Get (randStep^[n] s)

/-- Random::ResetSeed: a seed ≤ 0 derives the Weyl state from wall-clock
time xor the object's address (modelled by the oracles `timeE`, `memE`);
a positive seed is used directly.  The state is then doubled to make it
even.  The `value` member is NOT touched by ResetSeed. -/
def ResetSeed (seed : ℤ) (timeE memE : ℕ) (s : RandState) : RandState :=
  let w : ℕ := if seed ≤ 0 then Nat.xor timeE memE else seed.toNat
  ⟨s.value, (w * 2) % U64⟩

/-- Construction `Random(seed)`: members start at 0, then ResetSeed runs. -/
def mkRandom (seed : ℤ) (timeE memE : ℕ) : RandState :=
  ResetSeed seed timeE memE ⟨0, 0⟩

/-- Random::GetDouble: `Get() / (double) RAND_CAP`, exact in ℚ. -/
def GetDouble (s : RandState) : ℚ := (Get s : ℚ) / (RAND_CAP : ℚ)

/-- Random::GetUInt(max): `(uint32_t)(GetDouble() * max)`; the cast of a
non-negative double is truncation, modelled as Nat.floor followed by
reduction mod 2^32. -/
def GetUInt (n : ℕ) (s : RandState) : ℕ :=
  (Nat.floor (GetDouble s * (n : ℚ))) % RAND_CAP

/-- The Bernoulli test at the heart of `Random::P`, on a raw draw:
`draw < p * RAND_CAP`. -/
def bernTest (p : ℚ) (draw : ℕ) : Bool := decide ((draw : ℚ) < p * (RAND_CAP : ℚ))

/-- Random::P(p): true iff the raw draw is strictly below p·2^32. -/
def P (p : ℚ) (s : RandState) : Bool := bernTest p (Get s)

/-- Loop of `Random::GetRandGeometric`: `result = 1; while (!P(p)) result++;`,
run against an explicit list of raw 32-bit draws; `none` when the draw
list is exhausted without a success. -/
def geomLoop (p : ℚ) : List ℕ → ℕ → Option ℕ
  | [], _ => none
  | d :: ds, acc => if bernTest p d then some acc else geomLoop p ds (acc + 1)

/-- Random::GetRandGeometric(p): for p = 0 it returns
`std::numeric_limits<uint32_t>::infinity()`, which for an integral type
is `uint32_t()`, i.e. 0; otherwise it counts Bernoulli trials up to and
including the first success. -/
def GetRandGeometric (p : ℚ) (draws : List ℕ) : Option ℕ :=
  if p = 0 then some 0 else geomLoop p draws 1

/-! ### World_select.h : tournament selection -/

/-- Inner loop of TournamentSelect: scan the remaining entries, keeping
the current best id `b` and its fitness `bf`; a strictly greater fitness
replaces the champion (first-seen maximum wins ties). -/
def tournScan (fit : ℕ → ℚ) : List ℕ → ℕ → ℚ → ℕ
  | [], b, _ => b
  | e :: es, b, bf =>
      if fit e > bf then tournScan fit es e (fit e) else tournScan fit es b bf

/-- Winner of one tournament over the drawn entry list (TournamentSelect
body): best starts as `entries[0]`, then the scan runs over all entries
from index 1. -/
def tournWinner (fit : ℕ → ℚ) : List ℕ → ℕ
  | [] => 0
  | e0 :: rest => tournScan fit rest e0 (fit e0)

/-- TournamentSelect: assert `t_size > 0` and `tourny_count > 0`, then for
each tournament draw `t_size` entries with replacement (the draws are the
oracle `draw T i`, the i-th call to `GetRandomOrgID` in tournament `T`) and
birth the winner.  The result is the list of parent ids birthed, in order;
an assertion failure yields an error and no births. -/
def TournamentSelect (fit : ℕ → ℚ) (t_size tourny_count : ℕ)
    (draw : ℕ → ℕ → ℕ) : Except String (List ℕ) :=
  if t_size = 0 then Except.error "emp_assert: t_size > 0"
  else if tourny_count = 0 then Except.error "emp_assert: tourny_count > 0"
  else Except.ok ((List.range tourny_count).map fun T =>
    tournWinner fit ((List.range t_size).map (draw T)))

/-! ### World_select.h : elite selection -/

/-- Insertion into a `std::multimap<double,size_t>` ordered by fitness:
a new pair goes after all pairs with a key less than or equal to its own
(equal keys keep insertion order). -/
def mmInsert (x : ℚ × ℕ) : List (ℚ × ℕ) → List (ℚ × ℕ)
  | [] => [x]
  | y :: ys => if y.1 ≤ x.1 then y :: mmInsert x ys else x :: y :: ys

/-- The fitness multimap of EliteSelect: occupied ids in increasing id
order, each inserted with its fitness. -/
def eliteFitMap (fit : ℕ → ℚ) (occ : ℕ → Bool) (size : ℕ) : List (ℚ × ℕ) :=
  (List.range size).foldl
    (fun m id => if occ id then mmInsert (fit id, id) m else m) []

/-- EliteSelect: assert `0 < e_count ≤ #occupied` and `copy_count > 0`,
then birth `copy_count` copies of each of the top `e_count` ids taken
from the reverse (descending-fitness) end of the multimap.  Births are
(parent id, copy count) pairs; an assertion failure yields an error. -/
def EliteSelect (fit : ℕ → ℚ) (occ : ℕ → Bool) (size e_count copy_count : ℕ) :
    Except String (List (ℕ × ℕ)) :=
  if ¬ (0 < e_count ∧ e_count ≤ (List.range size).countP (fun id => occ id)) then
    Except.error "emp_assert: e_count > 0 and e_count <= num orgs"
  else if copy_count = 0 then Except.error "emp_assert: copy_count > 0"
  else Except.ok
    (((eliteFitMap fit occ size).reverse.take e_count).map fun p => (p.2, copy_count))

/-! ### World_select.h : lexicase selection -/

/-- Inner loop of one lexicase filtering pass: `mx` is the running maximum
fitness, `next` the accumulated survivor list; a strictly greater value
clears the list and restarts it, an equal value appends. -/
def lexScan (f : ℕ → ℚ) : List ℕ → ℚ → List ℕ → List ℕ
  | [], _, next => next
  | g :: gs, mx, next =>
      if f g > mx then lexScan f gs (f g) [g]
      else if f g = mx then lexScan f gs mx (next ++ [g])
      else lexScan f gs mx next

/-- One lexicase filtering pass over the current genotype list for one
fitness function: per the source, `max_fit` starts as the fitness of
`cur_gens[0]`, `next_gens` starts already holding `cur_gens[0]`, and the
scan then runs over ALL of `cur_gens` (so the head is visited again). -/
def lexStep (f : ℕ → ℚ) (cur : List ℕ) : List ℕ :=
  match cur with
  | [] => []
  | g0 :: _ => lexScan f cur (f g0) [g0]

/-- The per-offspring lexicase loop: apply the drawn fitness functions in
order, replacing the survivor list after each; stop early when the
survivor list has exactly one entry.  Returns the final survivor list and
the number of functions actually applied (`depth + 1` in the source). -/
def lexRun : List (ℕ → ℚ) → List ℕ → List ℕ × ℕ
  | [], cur => (cur, 0)
  | f :: fs, cur =>
      let nxt := lexStep f cur
      if nxt.length = 1 then (nxt, 1)
      else
        let r := lexRun fs nxt
        (r.1, r.2 + 1)

/-- Maximum of `f` over a genotype list, seeded with the value of the head
(the true maximum for a nonempty list). -/
def listMaxF (f : ℕ → ℚ) (cur : List ℕ) : ℚ :=
  cur.foldl (fun a g => max a (f g)) (f (cur.headD 0))

/-- The filtering pass as the specification words it: keep exactly the
genotypes of the previous survivor set whose value equals the maximum
over that set. -/
def lexStepSpec (f : ℕ → ℚ) (cur : List ℕ) : List ℕ :=
  cur.filter fun g => f g = listMaxF f cur

/-- The per-offspring loop as the specification words it: filter by each
function in order and stop once a single genotype remains. -/
def lexRunSpec : List (ℕ → ℚ) → List ℕ → List ℕ × ℕ
  | [], cur => (cur, 0)
  | f :: fs, cur =>
      let nxt := lexStepSpec f cur
      if nxt.length = 1 then (nxt, 1)
      else
        let r := lexRunSpec fs nxt
        (r.1, r.2 + 1)

/-- Genotype grouping of LexicaseSelect: scan occupied org ids in order;
an id with an already-seen genome joins that genome's list, a new genome
opens a fresh list.  Entries are (genome, member ids) in first-seen order. -/
def groupScan (genome : ℕ → ℕ) (id : ℕ) :
    List (ℕ × List ℕ) → List (ℕ × List ℕ)
  | [] => [(genome id, [id])]
  | e :: es =>
      if e.1 = genome id then (e.1, e.2 ++ [id]) :: es
      else e :: groupScan genome id es

/-- genotype_lists of LexicaseSelect: member-id lists per distinct genome,
in first-seen order over occupied slots. -/
def genotypeLists (genome : ℕ → ℕ) (occ : ℕ → Bool) (size : ℕ) :
    List (ℕ × List ℕ) :=
  (List.range size).foldl
    (fun acc id => if occ id then groupScan genome id acc else acc) []

/-- Walk of the winner index over the surviving genotypes' member lists
(the `winner < genotype_lists[gen].size()` loop); `none` models the
`repro_id != -1` assertion tripping. -/
def pickWinner (glists : List (List ℕ)) : ℕ → List ℕ → Option ℕ
  | _, [] => none
  | w, g :: gs =>
      let l := glists.getD g []
      if w < l.length then some (l.getD w 0) else pickWinner glists (w - l.length) gs

/-- LexicaseSelect: assert a nonempty world and a nonempty fitness-function
list; group genotypes; then for each reproduction round run the filtering
loop over the drawn function order (`orderOr r`), and pick the winning
organism from the survivors with the drawn index (`pickOr r`, the
`GetUInt(options)` draw).  Result: one birthed org id per round (`none`
marks the unreachable `repro_id == -1` assertion). -/
def LexicaseSelect (size : ℕ) (occ : ℕ → Bool) (genome : ℕ → ℕ)
    (fit_funs : List (ℕ → ℚ)) (repro_count : ℕ)
    (orderOr : ℕ → List ℕ) (pickOr : ℕ → ℕ) :
    Except String (List (Option ℕ)) :=
  if size = 0 then Except.error "emp_assert: world.GetSize() > 0"
  else if fit_funs.length = 0 then Except.error "emp_assert: fit_funs.size() > 0"
  else
    let glists := (genotypeLists genome occ size).map Prod.snd
    let gfit : ℕ → ℕ → ℚ := fun fid g =>
      (fit_funs.getD fid (fun _ => 0)) ((glists.getD g []).headD 0)
    Except.ok ((List.range repro_count).map fun r =>
      let order := orderOr r
      let survivors := (lexRun (order.map fun fid => gfit fid)
                          (List.range glists.length)).1
      pickWinner glists (pickOr r) survivors)

/-! ### World_select.h : roulette selection -/

/-- Modelled from the spec: `IndexMap::Index(position)` (IndexMap.h is not
among the sources) returns the id whose half-open cumulative-weight
interval contains the position. -/
def indexMapIndex : List ℚ → ℚ → ℕ
  | [], _ => 0
  | w :: ws, p => if p < w then 0 else indexMapIndex ws (p - w) + 1

/-- Modelled from the spec: `IndexMap::Adjust(id, weight)` sets the weight
of `id`, growing the id space with zero weights when needed. -/
def adjustWeight (ws : List ℚ) (id : ℕ) (w : ℚ) : List ℚ :=
  if id < ws.length then ws.set id w
  else ws ++ List.replicate (id - ws.length) 0 ++ [w]

/-- State threaded through the roulette draw loop: the weight structure,
the parent ids birthed so far, and the trace of Adjust calls made after
births. -/
structure RouletteState where
  ws : List ℚ
  births : List ℕ
  postTrace : List (ℕ × ℚ)
deriving DecidableEq, Repr

/-- One roulette round `n`: draw a position (`posOr n`, the
`GetDouble(total)` draw), map it to a parent through the index, birth one
offspring at slot `newIdOr n` (the id `DoBirth` reports), and — only when
the population is not synchronous — register the offspring's fitness in
the index. -/
def rouletteRound (fit : ℕ → ℚ) (sync : Bool) (posOr : ℕ → ℚ)
    (newIdOr : ℕ → ℕ) (st : RouletteState) (n : ℕ) : RouletteState :=
  let parent := indexMapIndex st.ws (posOr n)
  let off := newIdOr n
  if sync then ⟨st.ws, st.births ++ [parent], st.postTrace⟩
  else ⟨adjustWeight st.ws off (fit off), st.births ++ [parent],
        st.postTrace ++ [(off, fit off)]⟩

/-- The initial Adjust calls of RouletteSelect: one per slot id in
`[0, size)` — the source loop carries no occupancy check. -/
def rouletteInitTrace (fit : ℕ → ℚ) (size : ℕ) : List (ℕ × ℚ) :=
  (List.range size).map fun id => (id, fit id)

/-- RouletteSelect: assert `count > 0`; load the index with the fitness of
every slot id in `[0, size)`; then run `count` draw/birth rounds.  Result:
the birthed parent ids and the full trace of Adjust calls made on the
index. -/
def RouletteSelect (size : ℕ) (fit : ℕ → ℚ) (sync : Bool) (count : ℕ)
    (posOr : ℕ → ℚ) (newIdOr : ℕ → ℕ) :
    Except String (List ℕ × List (ℕ × ℚ)) :=
  if count = 0 then Except.error "emp_assert: count > 0"
  else
    let st := (List.range count).foldl (rouletteRound fit sync posOr newIdOr)
      ⟨(List.range size).map fit, [], []⟩
    Except.ok (st.births, rouletteInitTrace fit size ++ st.postTrace)

/-- The index-building rule as the specification words it: register the
fitness of all occupied slots and only occupied slots. -/
def rouletteInitTraceSpec (fit : ℕ → ℚ) (occ : ℕ → Bool) (size : ℕ) :
    List (ℕ × ℚ) :=
  ((List.range size).filter fun id => occ id).map fun id => (id, fit id)

/-! ### World_select.h : eco selection -/

/-- Per-function maximum/tie-count accumulation of EcoSelect: the running
maximum starts at 0.0 and the count at 0; a strictly greater value resets
the count to 1, an equal value increments it. -/
def ecoMaxCount (vals : List ℚ) : ℚ × ℕ :=
  vals.foldl
    (fun mc v =>
      if v > mc.1 then (v, 1)
      else if v = mc.1 then (mc.1, mc.2 + 1)
      else mc) (0, 0)

/-- Bonus application for one supplemental function: every organism whose
value equals `mx` has `bonus` added to its base fitness. -/
def ecoApplyBonus (bonus mx : ℚ) (vals base : List ℚ) : List ℚ :=
  List.zipWith (fun v b => if v = mx then b + bonus else b) vals base

/-- The fitness-readjustment loop of EcoSelect over the supplemental
functions' value tables: a function with tie count 0 awards nothing
(`continue`); otherwise its pool (`pool_sizes[ex_id]`, here the head of
the remaining pools) splits evenly among the tied organisms. -/
def ecoAdjustAux : List (List ℚ) → List ℚ → List ℚ → List ℚ
  | [], _, base => base
  | vals :: more, pools, base =>
      let mc := ecoMaxCount vals
      let base' :=
        if mc.2 = 0 then base
        else ecoApplyBonus (pools.headD 0 / (mc.2 : ℚ)) mc.1 vals base
      ecoAdjustAux more pools.tail base'

/-- Effective fitness computed by EcoSelect: base fitness plus the
resource bonuses. -/
def ecoAdjust (base : List ℚ) (extras : List (List ℚ)) (pools : List ℚ) :
    List ℚ :=
  ecoAdjustAux extras pools base

/-- Maximum of a value list seeded with its head (the true maximum for a
nonempty list). -/
def listMaxQ (vals : List ℚ) : ℚ := vals.foldl max (vals.headD 0)

/-- The readjustment as the specification words it: for each supplemental
function, every organism at the true population maximum gains pool size
divided by the number of organisms tied at that maximum. -/
def ecoAdjustSpecAux : List (List ℚ) → List ℚ → List ℚ → List ℚ
  | [], _, base => base
  | vals :: more, pools, base =>
      let mx := listMaxQ vals
      let c := vals.countP fun v => v = mx
      let base' := ecoApplyBonus (pools.headD 0 / (c : ℚ)) mx vals base
      ecoAdjustSpecAux more pools.tail base'

/-- Spec-worded effective fitness for EcoSelect. -/
def ecoAdjustSpec (base : List ℚ) (extras : List (List ℚ)) (pools : List ℚ) :
    List ℚ :=
  ecoAdjustSpecAux extras pools base

/-- EcoSelect: assert a base fitness function, a nonempty world and
`0 < t_size ≤ size`; compute the effective fitness; then run ordinary
tournaments against it.  `extras` are the supplemental functions' value
tables (one list per function, one value per org).  Note that no
assertion relates `pools.length` to `extras.length`. -/
def EcoSelect (base : List ℚ) (extras : List (List ℚ)) (pools : List ℚ)
    (t_size tourny_count : ℕ) (hasFitFun : Bool) (draw : ℕ → ℕ → ℕ) :
    Except String (List ℕ) :=
  if ¬ hasFitFun then Except.error "emp_assert: must define a base fitness function"
  else if base.length = 0 then Except.error "emp_assert: world.GetSize() > 0"
  else if ¬ (0 < t_size ∧ t_size ≤ base.length) then
    Except.error "emp_assert: 0 < t_size <= world.GetSize()"
  else
    let adj := ecoAdjust base extras pools
    Except.ok ((List.range tourny_count).map fun T =>
      tournWinner (fun i => adj.getD i 0) ((List.range t_size).map (draw T)))

/-! ### World_select.h : MAP-Elites entry points -/

/-- MapElitesPhenotype::OK: the classifier function is present and the
category count is nonzero.  A phenotype is modelled by whether its
function is non-null and by its id_count. -/
def phenotypeOK (p : Bool × ℕ) : Bool := p.1 && decide (0 < p.2)

/-- MapElitesConfig::OK: every phenotype is OK. -/
def configOK (config : List (Bool × ℕ)) : Bool :=
  config.all phenotypeOK

/-- MapElitesSeed: the body holds only the two assertions — a nonempty
world and a valid config — and performs no operation; the world value
passes through untouched and no birth happens. -/
def MapElitesSeed {W O : Type} (world : W) (size : ℕ)
    (config : List (Bool × ℕ)) (org : O) : Except String (W × List ℕ) :=
  if size = 0 then Except.error "emp_assert: world.GetSize() > 0"
  else if ¬ configOK config then Except.error "emp_assert: config.OK()"
  else Except.ok (world, [])

/-- MapElitesGrow: same two assertions, no operation, world untouched,
no birth. -/
def MapElitesGrow {W : Type} (world : W) (size : ℕ)
    (config : List (Bool × ℕ)) (repro_count : ℕ) : Except String (W × List ℕ) :=
  if size = 0 then Except.error "emp_assert: world.GetSize() > 0"
  else if ¬ configOK config then Except.error "emp_assert: config.OK()"
  else Except.ok (world, [])

/-! ### Concrete instances used by counterexamples and witnesses -/

/-- Fitness landscape of the C2 counterexample and witness: organism 1 is
the unique global maximum of a two-organism population. -/
def c2fit : ℕ → ℚ := fun i => if i = 1 then 2 else 1

/-- Fitness function of the C1 counterexample and witness: genotype 0 has
value 1, every other genotype value 0. -/
def c1fit : ℕ → ℚ := fun g => if g = 0 then 1 else 0

/-- Occupancy of the C4 counterexample world: only slot 0 is occupied. -/
def c4occ : ℕ → Bool := fun id => decide (id = 0)

/-! ### Theorems -/

/-- The value returned by Get is always below RAND_CAP. -/
theorem Get_lt_cap (s : RandState) : Get s < RAND_CAP :=
  Nat.mod_lt _ (by norm_num [RAND_CAP])

/-- C5: for every p in [0,1], Random::P(p) returns true iff the raw 32-bit
draw is strictly below p·2^32; consequently P(0.0) is false and P(1.0) is
true for every generator state. -/
theorem C5_P_contract (p : ℚ) (s : RandState) (h0 : 0 ≤ p) (h1 : p ≤ 1) :
    (P p s = true ↔ (Get s : ℚ) < p * (RAND_CAP : ℚ))
    ∧ P 0 s = false ∧ P 1 s = true := by
  refine ⟨by simp [P, bernTest], ?_, ?_⟩
  · simp only [P, bernTest, zero_mul, decide_eq_false_iff_not, not_lt]
    exact Nat.cast_nonneg _
  · simp only [P, bernTest, one_mul, decide_eq_true_eq]
    exact_mod_cast Get_lt_cap s

/-- Witness for C5 at p = 1/2 and the zero state. -/
theorem C5_witness :
    (P (1/2) ⟨0, 0⟩ = true ↔ ((Get ⟨0, 0⟩ : ℚ) < (1/2) * (RAND_CAP : ℚ)))
    ∧ P 0 ⟨0, 0⟩ = false ∧ P 1 ⟨0, 0⟩ = true :=
  C5_P_contract (1/2) ⟨0, 0⟩ (by norm_num) (by norm_num)

/-- C6: for every n > 0 and every state, GetUInt(n) lands in [0, n); it is
floor of the uniform double (raw draw over 2^32) times n, exactly so
whenever n does not exceed 2^32. -/
theorem C6_GetUInt_range (n : ℕ) (s : RandState) (h : 0 < n) :
    GetUInt n s < n
    ∧ (n ≤ RAND_CAP →
        GetUInt n s = Nat.floor ((Get s : ℚ) / (RAND_CAP : ℚ) * (n : ℚ))) := by
  have hcap : (0 : ℚ) < (RAND_CAP : ℚ) := by norm_num [RAND_CAP]
  have hd1 : GetDouble s < 1 := by
    rw [GetDouble, div_lt_one hcap]
    exact_mod_cast Get_lt_cap s
  have hd0 : 0 ≤ GetDouble s := by
    rw [GetDouble]
    exact div_nonneg (Nat.cast_nonneg _) (Nat.cast_nonneg _)
  have hfl : Nat.floor (GetDouble s * (n : ℚ)) < n := by
    rw [Nat.floor_lt (mul_nonneg hd0 (Nat.cast_nonneg _))]
    calc GetDouble s * (n : ℚ) < 1 * (n : ℚ) := by
          exact mul_lt_mul_of_pos_right hd1 (by exact_mod_cast h)
      _ = (n : ℚ) := one_mul _
  refine ⟨lt_of_le_of_lt (Nat.mod_le _ _) hfl, fun hn => ?_⟩
  rw [GetUInt, Nat.mod_eq_of_lt (lt_of_lt_of_le hfl hn), GetDouble]

/-- Witness for C6 at n = 7 and the zero state. -/
theorem C6_witness :
    GetUInt 7 ⟨0, 0⟩ < 7
    ∧ (7 ≤ RAND_CAP →
        GetUInt 7 ⟨0, 0⟩ = Nat.floor ((Get ⟨0, 0⟩ : ℚ) / (RAND_CAP : ℚ) * (7 : ℚ))) :=
  C6_GetUInt_range 7 ⟨0, 0⟩ (by norm_num)

/-- C9 (amended): for every positive seed the entire draw sequence is a
function of the seed alone — two instances built with the same positive
seed agree on every draw, whatever their time and address entropy.  (A
seed ≤ 0 is derived from time and address instead and is not
reproducible.) -/
theorem C9_seed_determinism (seed : ℤ) (t1 m1 t2 m2 n : ℕ) (h : 0 < seed) :
    nthDraw (mkRandom seed t1 m1) n = nthDraw (mkRandom seed t2 m2) n := by
  have hns : ¬ seed ≤ 0 := not_le.mpr h
  unfold mkRandom ResetSeed
  rw [if_neg hns, if_neg hns]

/-- Witness for C9 at seed 1 with two different entropy environments. -/
theorem C9_witness :
    nthDraw (mkRandom 1 0 1) 0 = nthDraw (mkRandom 1 5 7) 0 :=
  C9_seed_determinism 1 0 1 5 7 0 (by norm_num)

/-- C9 counterexample: two instances reset with the identical seed 0 but
different memory addresses (1 and 2) disagree on their second draw, so the
draw sequence is not a function of the seed alone for every seed. -/
theorem C9_counterexample :
    nthDraw (mkRandom 0 0 1) 1 ≠ nthDraw (mkRandom 0 0 2) 1 := by decide

/-- C10: under their preconditions (nonempty world, valid config),
MapElitesSeed and MapElitesGrow return the world unchanged and perform no
birth. -/
theorem C10_mapelites_frame {W O : Type} (world : W) (size : ℕ)
    (config : List (Bool × ℕ)) (org : O) (repro_count : ℕ)
    (hs : size ≠ 0) (hc : configOK config = true) :
    MapElitesSeed world size config org = Except.ok (world, [])
    ∧ MapElitesGrow world size config repro_count = Except.ok (world, []) := by
  constructor
  · unfold MapElitesSeed
    rw [if_neg hs, if_neg (by simp [hc])]
  · unfold MapElitesGrow
    rw [if_neg hs, if_neg (by simp [hc])]

/-- Witness for C10: a concrete world value 42, size 1, one valid
phenotype. -/
theorem C10_witness :
    MapElitesSeed (42 : ℕ) 1 [(true, 2)] (0 : ℕ) = Except.ok (42, [])
    ∧ MapElitesGrow (42 : ℕ) 1 [(true, 2)] 3 = Except.ok (42, []) :=
  C10_mapelites_frame 42 1 [(true, 2)] 0 3 (by norm_num) (by decide)

/-- Helper for C7: what a successful run of the geometric loop means — the
result counts trials from `acc`, the draw it stops on passes the Bernoulli
test, and every earlier draw fails it. -/
theorem geomLoop_spec (p : ℚ) :
    ∀ (ds : List ℕ) (acc r : ℕ), geomLoop p ds acc = some r →
      acc ≤ r ∧ bernTest p (ds.getD (r - acc) 0) = true ∧
        ∀ i, i < r - acc → bernTest p (ds.getD i 0) = false := by
  intro ds
  induction ds with
  | nil => intro acc r h; simp [geomLoop] at h
  | cons d ds ih =>
    intro acc r h
    by_cases hb : bernTest p d = true
    · rw [geomLoop, if_pos hb] at h
      obtain rfl : acc = r := by exact_mod_cast Option.some_injective _ h
      refine ⟨le_refl _, ?_, ?_⟩
      · simpa [Nat.sub_self] using hb
      · intro i hi; omega
    · rw [geomLoop, if_neg hb] at h
      obtain ⟨h1, h2, h3⟩ := ih (acc + 1) r h
      have hacc : acc ≤ r := by omega
      have hsub : r - acc = (r - (acc + 1)) + 1 := by omega
      refine ⟨hacc, ?_, ?_⟩
      · rw [hsub]
        simpa using h2
      · intro i hi
        match i with
        | 0 => simpa using eq_false_of_ne_true hb
        | j + 1 =>
          have : j < r - (acc + 1) := by omega
          simpa using h3 j this

/-- C7: GetRandGeometric(0) returns the sentinel 0 (the value of
`std::numeric_limits<uint32_t>::infinity()` for an integral type), which
no positive-probability call can produce; for p ≠ 0, a returned value r is
at least 1 and is precisely the number of Bernoulli(p) trials up to and
including the first success — draw r−1 succeeds and draws 0..r−2 all
fail. -/
theorem C7_geometric_contract (p : ℚ) (draws : List ℕ) (r : ℕ)
    (hp : p ≠ 0) (h : GetRandGeometric p draws = some r) :
    (1 ≤ r ∧ bernTest p (draws.getD (r - 1) 0) = true ∧
      ∀ i, i < r - 1 → bernTest p (draws.getD i 0) = false)
    ∧ GetRandGeometric 0 draws = some 0 := by
  rw [GetRandGeometric, if_neg hp] at h
  exact ⟨geomLoop_spec p draws 1 r h, by rw [GetRandGeometric, if_pos rfl]⟩

/-- Witness for C7: with p = 1/2 the draw list [2^32−1, 0] fails once and
then succeeds, so the loop reports 2 trials; the p = 0 sentinel is 0. -/
theorem C7_witness :
    ((1 ≤ 2 ∧ bernTest (1/2) ([4294967295, 0].getD (2 - 1) 0) = true ∧
        ∀ i, i < 2 - 1 → bernTest (1/2) ([4294967295, 0].getD i 0) = false)
      ∧ GetRandGeometric 0 [4294967295, 0] = some 0) :=
  C7_geometric_contract (1/2) [4294967295, 0] 2 (by norm_num)
    (by norm_num [GetRandGeometric, geomLoop, bernTest, RAND_CAP])

/-- Helper for C2: the tournament scan returns `m` whenever the current
champion is `m` or strictly less fit, every remaining entry is `m` or
strictly less fit, and `m` is the champion or still to come. -/
theorem tournScan_max (fit : ℕ → ℚ) (m : ℕ) :
    ∀ (es : List ℕ) (b : ℕ),
      (b = m ∨ fit b < fit m) →
      (∀ e ∈ es, e = m ∨ fit e < fit m) →
      (b = m ∨ m ∈ es) →
      tournScan fit es b (fit b) = m := by
  intro es
  induction es with
  | nil =>
    intro b hb _ hmem
    rcases hmem with rfl | hmem
    · rfl
    · exact absurd hmem (List.not_mem_nil m)
  | cons e es ih =>
    intro b hb hall hmem
    have he : e = m ∨ fit e < fit m := hall e (List.mem_cons_self e es)
    by_cases hgt : fit e > fit b
    · rw [tournScan, if_pos hgt]
      refine ih e he (fun x hx => hall x (List.mem_cons_of_mem e hx)) ?_
      rcases he with he' | hlt
      · exact Or.inl he'
      · right
        rcases hmem with hb' | hmem'
        · exfalso
          rw [hb'] at hgt
          exact absurd hgt (not_lt.mpr (le_of_lt hlt))
        · rcases List.mem_cons.mp hmem' with hme | hmes
          · exfalso
            rw [hme] at hlt
            exact lt_irrefl _ hlt
          · exact hmes
    · rw [tournScan, if_neg hgt]
      refine ih b hb (fun x hx => hall x (List.mem_cons_of_mem e hx)) ?_
      rcases hb with hb' | hblt
      · exact Or.inl hb'
      · right
        rcases hmem with hb2 | hmem'
        · exfalso
          rw [hb2] at hblt
          exact lt_irrefl _ hblt
        · rcases List.mem_cons.mp hmem' with hme | hmes
          · exfalso
            rw [hme] at hblt
            exact hgt hblt
          · exact hmes

/-- Helper for C2: the tournament winner is `m` whenever `m` is among the
entries and every other entry is strictly less fit. -/
theorem tournWinner_max (fit : ℕ → ℚ) (entries : List ℕ) (m : ℕ)
    (hm : m ∈ entries)
    (hall : ∀ e ∈ entries, e = m ∨ fit e < fit m) :
    tournWinner fit entries = m := by
  match entries with
  | [] => exact absurd hm (List.not_mem_nil m)
  | e0 :: rest =>
    rw [tournWinner]
    apply tournScan_max fit m rest e0
      (hall e0 (List.mem_cons_self e0 rest))
      (fun x hx => hall x (List.mem_cons_of_mem e0 hx))
    rcases List.mem_cons.mp hm with rfl | h
    · exact Or.inl rfl
    · exact Or.inr h

/-- C2 (amended): whenever every tournament's drawn entry list contains the
organism `m` and every other drawn contestant is strictly less fit,
TournamentSelect births `m` in every tournament.  (Because entries are
drawn with replacement, a tournament of size equal to the population need
not contain `m`; the original claim fails on such draws — see the
counterexample.) -/
theorem C2_tournament_max (fit : ℕ → ℚ) (t_size tourny_count : ℕ)
    (draw : ℕ → ℕ → ℕ) (m : ℕ)
    (ht : t_size ≠ 0) (hc : tourny_count ≠ 0)
    (h : ∀ T, T < tourny_count →
      m ∈ (List.range t_size).map (draw T) ∧
      ∀ e ∈ (List.range t_size).map (draw T), e = m ∨ fit e < fit m) :
    TournamentSelect fit t_size tourny_count draw =
      Except.ok (List.replicate tourny_count m) := by
  rw [TournamentSelect, if_neg ht, if_neg hc]
  congr 1
  apply List.eq_replicate_iff.mpr
  refine ⟨by simp, ?_⟩
  intro b hb
  obtain ⟨T, hT, rfl⟩ := List.mem_map.mp hb
  have hT' := List.mem_range.mp hT
  exact tournWinner_max fit _ m (h T hT').1 (h T hT').2

/-- C2 counterexample: population of size 2 whose unique fitness maximum is
organism 1; t_size = 2 = population size; the draw-with-replacement that
picks slot 0 twice is valid (both ids are below the population size), yet
the birthed offspring is of organism 0, not of the global maximum. -/
theorem C2_counterexample :
    c2fit 0 < c2fit 1
    ∧ TournamentSelect c2fit 2 1 (fun _ _ => 0) = Except.ok [0]
    ∧ (0 : ℕ) ≠ 1 := by
  refine ⟨by norm_num [c2fit], ?_, by norm_num⟩
  rfl

/-- Witness for C2: the draw that picks slots 0 and 1 contains the
maximum, so the tournament births organism 1. -/
theorem C2_witness :
    TournamentSelect c2fit 2 1 (fun _ i => i) =
      Except.ok (List.replicate 1 1) :=
  C2_tournament_max c2fit 2 1 (fun _ i => i) 1 (by norm_num) (by norm_num)
    (by decide)

/-- Helper: the running maximum of a lexicase scan never drops below its
starting value. -/
theorem le_lexFoldMax (f : ℕ → ℚ) :
    ∀ (gs : List ℕ) (mx : ℚ), mx ≤ gs.foldl (fun a g => max a (f g)) mx := by
  intro gs
  induction gs with
  | nil => intro mx; exact le_refl mx
  | cons g gs ih =>
    intro mx
    exact le_trans (le_max_left mx (f g)) (ih (max mx (f g)))

/-- Helper for C1: closed form of the lexicase scan.  Writing M for the
maximum of the running maximum `mx` and the scanned fitnesses, the scan
returns the accumulated list `next` (kept only when no strict improvement
over `mx` occurred) followed by exactly the scanned genotypes whose
fitness equals M. -/
theorem lexScan_eq (f : ℕ → ℚ) :
    ∀ (gs : List ℕ) (mx : ℚ) (next : List ℕ),
      lexScan f gs mx next =
        (if gs.foldl (fun a g => max a (f g)) mx ≤ mx then next else [])
          ++ gs.filter (fun g => f g = gs.foldl (fun a g => max a (f g)) mx) := by
  intro gs
  induction gs with
  | nil => intro mx next; simp [lexScan]
  | cons g gs ih =>
    intro mx next
    rw [lexScan]
    by_cases hgt : f g > mx
    · have hmaxg : max mx (f g) = f g := max_eq_right (le_of_lt hgt)
      have hgM : f g ≤ gs.foldl (fun a x => max a (f x)) (f g) := le_lexFoldMax f gs (f g)
      have hM : (g :: gs).foldl (fun a x => max a (f x)) mx
          = gs.foldl (fun a x => max a (f x)) (f g) := by
        rw [List.foldl_cons, hmaxg]
      rw [if_pos hgt, ih (f g) [g], hM,
        if_neg (not_le.mpr (lt_of_lt_of_le hgt hgM))]
      by_cases heq : f g = gs.foldl (fun a x => max a (f x)) (f g)
      · rw [if_pos (le_of_eq heq.symm),
          List.filter_cons_of_pos (by simpa using heq)]
        rfl
      · rw [if_neg (fun hle => heq (le_antisymm hgM hle)),
          List.filter_cons_of_neg (by simpa using heq)]
    · have hle : f g ≤ mx := le_of_not_lt hgt
      have hmaxg : max mx (f g) = mx := max_eq_left hle
      have hM : (g :: gs).foldl (fun a x => max a (f x)) mx
          = gs.foldl (fun a x => max a (f x)) mx := by
        rw [List.foldl_cons, hmaxg]
      have hmxM : mx ≤ gs.foldl (fun a x => max a (f x)) mx := le_lexFoldMax f gs mx
      by_cases heq : f g = mx
      · rw [if_neg hgt, if_pos heq, ih mx (next ++ [g]), hM]
        by_cases h0 : gs.foldl (fun a x => max a (f x)) mx ≤ mx
        · have hMeq : gs.foldl (fun a x => max a (f x)) mx = mx := le_antisymm h0 hmxM
          rw [if_pos h0, if_pos h0,
            List.filter_cons_of_pos (by simpa using heq.trans hMeq.symm)]
          simp
        · have hgne : ¬ f g = gs.foldl (fun a x => max a (f x)) mx :=
            fun hc => h0 (le_of_eq ((heq.symm.trans hc).symm))
          rw [if_neg h0, if_neg h0,
            List.filter_cons_of_neg (by simpa using hgne)]
      · have hgne : ¬ f g = gs.foldl (fun a x => max a (f x)) mx :=
          fun hc => heq (le_antisymm hle (by rw [hc]; exact hmxM))
        rw [if_neg hgt, if_neg heq, ih mx next, hM,
          List.filter_cons_of_neg (by simpa using hgne)]

/-- Helper for C1: closed form of one lexicase filtering pass — the spec
filter, preceded by a duplicate of the head whenever the head attains the
maximum. -/
theorem lexStep_eq (f : ℕ → ℚ) (cur : List ℕ) (hne : cur ≠ []) :
    lexStep f cur =
      (if f (cur.headD 0) = listMaxF f cur then [cur.headD 0] else [])
        ++ lexStepSpec f cur := by
  match cur with
  | [] => exact absurd rfl hne
  | g0 :: rest =>
    have hhead : (g0 :: rest).headD 0 = g0 := rfl
    have hmax : listMaxF f (g0 :: rest)
        = (g0 :: rest).foldl (fun a g => max a (f g)) (f g0) := rfl
    have hg0M : f g0 ≤ (g0 :: rest).foldl (fun a g => max a (f g)) (f g0) :=
      le_lexFoldMax f (g0 :: rest) (f g0)
    rw [lexStep, lexScan_eq f (g0 :: rest) (f g0) [g0]]
    rw [lexStepSpec, hhead, hmax]
    by_cases heq : f g0 = (g0 :: rest).foldl (fun a g => max a (f g)) (f g0)
    · rw [if_pos (le_of_eq heq.symm), if_pos heq]
    · rw [if_neg (fun hle => heq (le_antisymm hg0M hle)), if_neg heq]

/-- C1 (amended): one lexicase filtering pass keeps, as a set, exactly the
genotypes of the previous survivor list whose value equals the maximum
over that list; but the produced list carries the previous head twice
whenever the head attains the maximum, so the list has length 1 — the
condition the source's early stop tests — precisely when the maximum is
attained by a unique genotype that is not the previous head.  A lone
survivor equal to the previous head therefore does not trigger the early
stop. -/
theorem C1_lexicase_filter (f : ℕ → ℚ) (cur : List ℕ) (hne : cur ≠ []) :
    (lexStep f cur).toFinset = (lexStepSpec f cur).toFinset
    ∧ lexStep f cur =
        (if f (cur.headD 0) = listMaxF f cur then [cur.headD 0] else [])
          ++ lexStepSpec f cur
    ∧ ((lexStep f cur).length = 1 ↔
        (lexStepSpec f cur).length = 1 ∧ f (cur.headD 0) ≠ listMaxF f cur) := by
  have hstep := lexStep_eq f cur hne
  have hhead_mem : cur.headD 0 ∈ cur := by
    match cur, hne with
    | g0 :: rest, _ => exact List.mem_cons_self g0 rest
  by_cases hm : f (cur.headD 0) = listMaxF f cur
  · have hmemspec : cur.headD 0 ∈ lexStepSpec f cur := by
      rw [lexStepSpec]
      exact List.mem_filter.mpr ⟨hhead_mem, by simpa using hm⟩
    have hlen : 1 ≤ (lexStepSpec f cur).length :=
      List.length_pos.mpr (List.ne_nil_of_mem hmemspec)
    refine ⟨?_, hstep, ?_⟩
    · rw [hstep, if_pos hm]
      simp only [List.toFinset_append, List.toFinset_cons, List.toFinset_nil,
        insert_emptyc_eq]
      rw [Finset.union_eq_right.mpr]
      intro x hx
      have hx' : x = cur.headD 0 := by simpa using hx
      rw [hx']
      exact List.mem_toFinset.mpr hmemspec
    · rw [hstep, if_pos hm]
      simp only [List.length_append, List.length_cons, List.length_nil]
      constructor
      · intro h1
        exact absurd hlen (by omega)
      · rintro ⟨_, hne'⟩
        exact absurd hm hne'
  · refine ⟨?_, hstep, ?_⟩
    · rw [hstep, if_neg hm]
      rfl
    · rw [hstep, if_neg hm]
      constructor
      · intro h1
        exact ⟨h1, hm⟩
      · rintro ⟨h1, _⟩
        exact h1

/-- C1 counterexample: two genotypes, and the same fitness function drawn
twice.  After the first function only one genotype (0) survives as a set,
yet the code's survivor list is [0,0] — length 2 — so the early stop does
not fire and a second function is applied (functions-applied count 2,
final list [0,0,0]); the filtering as the claim words it stops after one
function with survivor list [0]. -/
theorem C1_counterexample :
    (lexStep c1fit [0, 1]).toFinset.card = 1
    ∧ lexRun [c1fit, c1fit] [0, 1] = ([0, 0, 0], 2)
    ∧ lexRunSpec [c1fit, c1fit] [0, 1] = ([0], 1) := by decide

/-- Witness for C1 on the concrete survivor list [0, 1]. -/
theorem C1_witness :
    ((lexStep c1fit [0, 1]).toFinset = (lexStepSpec c1fit [0, 1]).toFinset)
    ∧ lexStep c1fit [0, 1] =
        (if c1fit ([0, 1].headD 0) = listMaxF c1fit [0, 1]
          then [[0, 1].headD 0] else [])
          ++ lexStepSpec c1fit [0, 1]
    ∧ ((lexStep c1fit [0, 1]).length = 1 ↔
        (lexStepSpec c1fit [0, 1]).length = 1
          ∧ c1fit ([0, 1].headD 0) ≠ listMaxF c1fit [0, 1]) :=
  C1_lexicase_filter c1fit [0, 1] (List.cons_ne_nil 0 [1])

/-- Helper: a fold of max never drops below its starting value. -/
theorem le_foldlMaxQ : ∀ (vals : List ℚ) (a : ℚ), a ≤ vals.foldl max a := by
  intro vals
  induction vals with
  | nil => intro a; exact le_refl a
  | cons v vs ih =>
    intro a
    exact le_trans (le_max_left a v) (ih (max a v))

/-- Helper: a fold of max is its starting value or a list member. -/
theorem foldlMaxQ_mem : ∀ (vals : List ℚ) (a : ℚ),
    vals.foldl max a = a ∨ vals.foldl max a ∈ vals := by
  intro vals
  induction vals with
  | nil => intro a; exact Or.inl rfl
  | cons v vs ih =>
    intro a
    rcases ih (max a v) with h | h
    · rcases max_choice a v with hc | hc
      · exact Or.inl (by rw [List.foldl_cons, h, hc])
      · refine Or.inr ?_
        rw [List.foldl_cons, h, hc]
        exact List.mem_cons_self v vs
    · exact Or.inr (List.mem_cons_of_mem v h)

/-- Helper: every member is bounded by a fold of max. -/
theorem mem_le_foldlMaxQ : ∀ (vals : List ℚ) (a v : ℚ), v ∈ vals →
    v ≤ vals.foldl max a := by
  intro vals
  induction vals with
  | nil => intro a v hv; exact absurd hv (List.not_mem_nil v)
  | cons w vs ih =>
    intro a v hv
    rcases List.mem_cons.mp hv with rfl | hv'
    · exact le_trans (le_max_right a v) (le_foldlMaxQ vs (max a v))
    · exact ih (max a w) v hv'

/-- Helper for C3: closed form of the EcoSelect max/count fold.  Writing M
for the maximum of the start value `a` and the scanned values, the fold
returns M together with the number of scanned values equal to M — plus the
starting count when no value improved on `a`. -/
theorem ecoFold_eq : ∀ (vals : List ℚ) (a : ℚ) (c : ℕ),
    vals.foldl
      (fun mc v =>
        if v > mc.1 then (v, 1)
        else if v = mc.1 then (mc.1, mc.2 + 1)
        else mc) (a, c)
    = (vals.foldl max a,
        (if vals.foldl max a ≤ a then c else 0)
          + vals.countP (fun v => v = vals.foldl max a)) := by
  intro vals
  induction vals with
  | nil => intro a c; simp
  | cons v vs ih =>
    intro a c
    rw [List.foldl_cons, List.foldl_cons, List.countP_cons]
    by_cases hgt : v > a
    · have hmax : max a v = v := max_eq_right (le_of_lt hgt)
      have hvM : v ≤ vs.foldl max v := le_foldlMaxQ vs v
      rw [hmax, if_pos hgt, ih v 1,
        if_neg (not_le.mpr (lt_of_lt_of_le hgt hvM))]
      by_cases heq : v = vs.foldl max v
      · rw [if_pos (le_of_eq heq.symm)]
        simp only [← heq]
        simp [Nat.add_comm]
      · rw [if_neg (fun hle => heq (le_antisymm hvM hle))]
        simp [heq]
    · have hle : v ≤ a := le_of_not_lt hgt
      have hmax : max a v = a := max_eq_left hle
      have haM : a ≤ vs.foldl max a := le_foldlMaxQ vs a
      rw [hmax]
      by_cases heq : v = a
      · rw [if_neg hgt, if_pos heq, ih a (c + 1)]
        by_cases h0 : vs.foldl max a ≤ a
        · have hMa : vs.foldl max a = a := le_antisymm h0 haM
          have hd : v = vs.foldl max a := heq.trans hMa.symm
          rw [if_pos h0, if_pos h0]
          simp only [hd]
          simp [Nat.add_comm, Nat.add_assoc]
        · have hvne : ¬ v = vs.foldl max a :=
            fun hc => h0 (le_of_eq ((heq.symm.trans hc).symm))
          rw [if_neg h0, if_neg h0]
          simp [hvne]
      · have hvne : ¬ v = vs.foldl max a :=
          fun hc => heq (le_antisymm hle (by rw [hc]; exact haM))
        rw [if_neg hgt, if_neg heq, ih a c]
        simp [hvne]

/-- Helper: folding max from a joined start value splits off the first
component. -/
theorem foldlMaxQ_split : ∀ (ws : List ℚ) (a b : ℚ),
    ws.foldl max (max a b) = max a (ws.foldl max b) := by
  intro ws
  induction ws with
  | nil => intro a b; rfl
  | cons w ws ih =>
    intro a b
    rw [List.foldl_cons, List.foldl_cons, max_assoc, ih a (max b w)]

/-- Helper for C3: when some value is non-negative, the EcoSelect fold
finds the true maximum and the exact tie count, and the count is
positive. -/
theorem ecoMaxCount_eq (vals : List ℚ) (h : ∃ v ∈ vals, 0 ≤ v) :
    ecoMaxCount vals = (listMaxQ vals, vals.countP (fun v => v = listMaxQ vals))
    ∧ 0 < vals.countP (fun v => v = listMaxQ vals) := by
  obtain ⟨v, hv, hv0⟩ := h
  match vals, hv with
  | v0 :: vs, hv =>
    have hM0 : listMaxQ (v0 :: vs) = vs.foldl max v0 := by
      rw [listMaxQ, List.headD_cons, List.foldl_cons, max_self]
    have hvle : v ≤ listMaxQ (v0 :: vs) := by
      rw [hM0]
      rcases List.mem_cons.mp hv with rfl | hv'
      · exact le_foldlMaxQ vs v
      · exact mem_le_foldlMaxQ vs v0 v hv'
    have hMnn : (0 : ℚ) ≤ listMaxQ (v0 :: vs) := le_trans hv0 hvle
    have hfold0 : (v0 :: vs).foldl max 0 = listMaxQ (v0 :: vs) := by
      rw [List.foldl_cons, foldlMaxQ_split vs 0 v0, ← hM0, max_eq_right hMnn]
    have hmem : listMaxQ (v0 :: vs) ∈ v0 :: vs := by
      rw [hM0]
      rcases foldlMaxQ_mem vs v0 with h' | h'
      · rw [h']
        exact List.mem_cons_self v0 vs
      · exact List.mem_cons_of_mem v0 h'
    have hcount : 0 < (v0 :: vs).countP (fun v => v = listMaxQ (v0 :: vs)) := by
      rw [List.countP_pos_iff]
      exact ⟨listMaxQ (v0 :: vs), hmem, by simp⟩
    refine ⟨?_, hcount⟩
    rw [ecoMaxCount, ecoFold_eq (v0 :: vs) 0 0, hfold0]
    simp

/-- Helper for C3: under non-negative maxima the EcoSelect readjustment
loop computes exactly the specification's bonuses. -/
theorem ecoAdjustAux_eq : ∀ (extras : List (List ℚ)) (pools base : List ℚ),
    (∀ vals ∈ extras, ∃ v ∈ vals, 0 ≤ v) →
    ecoAdjustAux extras pools base = ecoAdjustSpecAux extras pools base := by
  intro extras
  induction extras with
  | nil => intro pools base _; rfl
  | cons vals more ih =>
    intro pools base h
    obtain ⟨hmc, hpos⟩ := ecoMaxCount_eq vals (h vals (List.mem_cons_self vals more))
    have hne0 : ¬ (vals.countP fun v => v = listMaxQ vals) = 0 :=
      Nat.pos_iff_ne_zero.mp hpos
    rw [ecoAdjustAux, ecoAdjustSpecAux]
    simp only [hmc, hne0, if_false]
    exact ih pools.tail _ (fun vs hvs => h vs (List.mem_cons_of_mem vals hvs))

/-- C3 (amended): whenever each supplemental function attains a
non-negative maximum over the population, EcoSelect's effective fitness is
exactly the specification's — every organism at a function's population
maximum gains that function's pool size divided by the tie count, and no
other organism gains anything from that function.  (The source's running
maximum starts at 0, so a function whose values are all negative awards no
bonus at all — see the counterexample.) -/
theorem C3_eco_bonus (base : List ℚ) (extras : List (List ℚ)) (pools : List ℚ)
    (h : ∀ vals ∈ extras, ∃ v ∈ vals, 0 ≤ v) :
    ecoAdjust base extras pools = ecoAdjustSpec base extras pools :=
  ecoAdjustAux_eq extras pools base h

/-- C3 counterexample: a single organism whose only supplemental value is
−1.  That organism is the unique maximizer of the function over the whole
population, so the claim awards it the full pool of 4; the code awards
nothing because its running maximum never leaves 0. -/
theorem C3_counterexample :
    ecoAdjust [0] [[-1]] [4] = [0]
    ∧ ecoAdjustSpec [0] [[-1]] [4] = [4]
    ∧ ecoAdjust [0] [[-1]] [4] ≠ ecoAdjustSpec [0] [[-1]] [4] := by
  have h1 : ecoAdjust [0] [[-1]] [4] = [0] := by
    norm_num [ecoAdjust, ecoAdjustAux, ecoMaxCount, ecoApplyBonus]
  have h2 : ecoAdjustSpec [0] [[-1]] [4] = [4] := by
    norm_num [ecoAdjustSpec, ecoAdjustSpecAux, listMaxQ, ecoApplyBonus]
  refine ⟨h1, h2, ?_⟩
  rw [h1, h2]
  decide

/-- Witness for C3: two organisms tied at the supplemental maximum 1 with
pool 4 — the code and the specification agree (each gains 4/2 = 2). -/
theorem C3_witness :
    ecoAdjust [0, 0] [[1, 1]] [4] = ecoAdjustSpec [0, 0] [[1, 1]] [4] :=
  C3_eco_bonus [0, 0] [[1, 1]] [4] (by decide)

/-- Helper for C4: one roulette round appends the offspring's Adjust call
to the trace exactly when the population is not synchronous. -/
theorem rouletteRound_postTrace (fit : ℕ → ℚ) (sync : Bool) (posOr : ℕ → ℚ)
    (newIdOr : ℕ → ℕ) (st : RouletteState) (n : ℕ) :
    (rouletteRound fit sync posOr newIdOr st n).postTrace =
      st.postTrace ++ (if sync then [] else [(newIdOr n, fit (newIdOr n))]) := by
  rw [rouletteRound]
  by_cases h : sync = true
  · rw [if_pos h, if_pos h]
    simp
  · rw [if_neg h, if_neg h]

/-- Helper for C4: the roulette draw loop appends one offspring Adjust
call per round when asynchronous and none when synchronous. -/
theorem rouletteLoop_postTrace (fit : ℕ → ℚ) (sync : Bool) (posOr : ℕ → ℚ)
    (newIdOr : ℕ → ℕ) :
    ∀ (l : List ℕ) (st : RouletteState),
      (l.foldl (rouletteRound fit sync posOr newIdOr) st).postTrace =
        st.postTrace ++ (l.map fun n =>
          if sync then [] else [(newIdOr n, fit (newIdOr n))]).flatten := by
  intro l
  induction l with
  | nil => intro st; simp
  | cons n ns ih =>
    intro st
    rw [List.foldl_cons, ih, rouletteRound_postTrace]
    simp [List.append_assoc]

/-- C4 (amended): RouletteSelect loads the index with the fitness of every
slot id in [0, size) — occupied or not, the source loop has no occupancy
check — and after each birth it registers the offspring's fitness if and
only if the population is not synchronous. -/
theorem C4_roulette_registration (size : ℕ) (fit : ℕ → ℚ) (sync : Bool)
    (count : ℕ) (posOr : ℕ → ℚ) (newIdOr : ℕ → ℕ) (hc : count ≠ 0) :
    RouletteSelect size fit sync count posOr newIdOr =
      Except.ok
        (((List.range count).foldl (rouletteRound fit sync posOr newIdOr)
            ⟨(List.range size).map fit, [], []⟩).births,
          rouletteInitTrace fit size ++
            ((List.range count).map fun n =>
              if sync then [] else [(newIdOr n, fit (newIdOr n))]).flatten) := by
  simp only [RouletteSelect, if_neg hc]
  rw [rouletteLoop_postTrace]
  simp

/-- C4 counterexample: a world of two slots where only slot 0 is occupied.
The occupied slots are exactly [0], but RouletteSelect's index-building
trace registers both ids 0 and 1 — so the index is not built from
occupied slots only. -/
theorem C4_counterexample :
    RouletteSelect 2 (fun _ => (1 : ℚ)) true 1 (fun _ => 0) (fun _ => 0)
      = Except.ok ([0], [(0, 1), (1, 1)])
    ∧ ((List.range 2).filter fun id => c4occ id) = [0]
    ∧ ([(0, (1 : ℚ)), (1, 1)].map Prod.fst ≠ [0]) := by
  refine ⟨?_, by decide, by decide⟩
  rfl

/-- Witness for C4: an asynchronous world of two slots, one draw; the
offspring placed at slot 2 is registered after its birth. -/
theorem C4_witness :
    RouletteSelect 2 (fun _ => (1 : ℚ)) false 1 (fun _ => 0) (fun _ => 2)
      = Except.ok
          (((List.range 1).foldl
              (rouletteRound (fun _ => (1 : ℚ)) false (fun _ => 0) (fun _ => 2))
              ⟨(List.range 2).map (fun _ => (1 : ℚ)), [], []⟩).births,
            rouletteInitTrace (fun _ => (1 : ℚ)) 2 ++
              ((List.range 1).map fun n =>
                if false then [] else [((2 : ℕ), (1 : ℚ))]).flatten) :=
  C4_roulette_registration 2 (fun _ => (1 : ℚ)) false 1 (fun _ => 0)
    (fun _ => 2) (by norm_num)

/-- C8 (amended): each of the four listed contract errors that the source
actually asserts — zero elite count, zero tournament size (tournament and
eco), empty lexicase fitness-function list — is rejected by an assertion
before any birth occurs (the error return carries no births).  EcoSelect
carries no assertion relating the pool-size count to the supplemental
function count; a longer pool vector is silently accepted — see the
counterexample. -/
theorem C8_contract_asserts (fit : ℕ → ℚ) (occ : ℕ → Bool)
    (size copy_count tourny_count repro_count : ℕ)
    (draw : ℕ → ℕ → ℕ) (genome : ℕ → ℕ)
    (orderOr : ℕ → List ℕ) (pickOr : ℕ → ℕ)
    (base : List ℚ) (extras : List (List ℚ)) (pools : List ℚ)
    (hsize : size ≠ 0) (hbase : base ≠ []) :
    EliteSelect fit occ size 0 copy_count
        = Except.error "emp_assert: e_count > 0 and e_count <= num orgs"
    ∧ TournamentSelect fit 0 tourny_count draw
        = Except.error "emp_assert: t_size > 0"
    ∧ LexicaseSelect size occ genome [] repro_count orderOr pickOr
        = Except.error "emp_assert: fit_funs.size() > 0"
    ∧ EcoSelect base extras pools 0 tourny_count true draw
        = Except.error "emp_assert: 0 < t_size <= world.GetSize()" := by
  refine ⟨?_, ?_, ?_, ?_⟩
  · rw [EliteSelect, if_pos (by simp)]
  · rw [TournamentSelect, if_pos rfl]
  · rw [LexicaseSelect, if_neg hsize, if_pos (by simp : ([] : List (ℕ → ℚ)).length = 0)]
  · rw [EcoSelect, if_neg (by simp),
      if_neg (by simpa [List.length_eq_zero] using hbase), if_pos (by simp)]

/-- Witness for C8 at a concrete one-organism world. -/
theorem C8_witness :
    EliteSelect (fun _ => (1 : ℚ)) (fun _ => true) 1 0 1
        = Except.error "emp_assert: e_count > 0 and e_count <= num orgs"
    ∧ TournamentSelect (fun _ => (1 : ℚ)) 0 1 (fun _ _ => 0)
        = Except.error "emp_assert: t_size > 0"
    ∧ LexicaseSelect 1 (fun _ => true) (fun _ => 0) [] 1 (fun _ => []) (fun _ => 0)
        = Except.error "emp_assert: fit_funs.size() > 0"
    ∧ EcoSelect [1] [] [] 0 1 true (fun _ _ => 0)
        = Except.error "emp_assert: 0 < t_size <= world.GetSize()" :=
  C8_contract_asserts (fun _ => (1 : ℚ)) (fun _ => true) 1 1 1 1
    (fun _ _ => 0) (fun _ => 0) (fun _ => []) (fun _ => 0)
    [1] [] [] (by norm_num) (by simp)

/-- C8 counterexample: EcoSelect with one supplemental function but two
pool sizes — the counts mismatch, yet no assertion fires and a birth is
performed (organism 1 wins the tournament under effective fitness
[1+4/2·0… = 3, 4]). -/
theorem C8_counterexample :
    EcoSelect [1, 2] [[1, 1]] [4, 4] 2 1 true (fun _ i => i) = Except.ok [1]
    ∧ ([[(1 : ℚ), 1]].length ≠ [(4 : ℚ), 4].length) := by
  have hadj : ecoAdjust [1, 2] [[1, 1]] [4, 4] = [3, 4] := by
    norm_num [ecoAdjust, ecoAdjustAux, ecoMaxCount, ecoApplyBonus]
  refine ⟨?_, by decide⟩
  rw [EcoSelect, if_neg (by simp), if_neg (by simp), if_neg (by norm_num)]
  rw [hadj]
  rfl

end EmpSelect
